import Mathlib

/-!
Verification of the airseeker core against its natural-language specification.

The TypeScript sources are embedded shallowly: JavaScript bigints become `Int`,
JavaScript bigint division (which truncates toward zero) becomes `Int.tdiv`,
arrays become `List`, fallible functions return `Option`, and the implicit
wall clock (`Date.now()`) becomes an explicit `now` parameter.
-/

namespace Airseeker

/-- From src/utils.ts: absolute value of a bigint
(`n < 0n ? -n : n`). -/
def abs (n : Int) : Int := if n < 0 then -n else n

/-- From src/constants.ts: `HUNDRED_PERCENT = 1e8`, used as the deviation
scale factor (the code converts it with `BigInt`). -/
def HUNDRED_PERCENT : Int := 100000000

/-- Modelled from the spec: the constant `UINT256_MAX` is imported by the
deviation module from the constants module, but its defining line is absent
from the sources. It stands for the maximal 256-bit unsigned value, the
"maximal deviation" sentinel of the spec. -/
def UINT256_MAX : Int := 2 ^ 256 - 1

/-- From src/constants.ts: Solidity type(int224).min. -/
def INT224_MIN : Int := -(2 ^ 223)

/-- From src/constants.ts: Solidity type(int224).max. -/
def INT224_MAX : Int := 2 ^ 223 - 1

/-- From the deviation module (embedded in src/src/constants.ts):
`calculateDeviationPercentage(initialValue, updatedValue, deviationReference)`.
Zero delta short-circuits to 0; zero reference denominator yields
`UINT256_MAX`; otherwise the scaled quotient with bigint division
(truncation toward zero, here `Int.tdiv` on non-negative operands). -/
def calculateDeviationPercentage (initialValue updatedValue deviationReference : Int) : Int :=
  let absoluteDelta := abs (updatedValue - initialValue)
  if absoluteDelta = 0 then 0
  else
    let absoluteInitialValue := abs (deviationReference - initialValue)
    if absoluteInitialValue = 0 then UINT256_MAX
    else Int.tdiv (absoluteDelta * HUNDRED_PERCENT) absoluteInitialValue

/-- From the deviation module: `calculateMedian(arr)`. The empty array throws
(`none` here); otherwise the array is copied, sorted ascending, and the middle
element (odd length) or the bigint mean of the two middle elements (even
length, division truncating toward zero) is returned. The JavaScript
comparison sort is embedded as `List.insertionSort`, which produces the unique
ascending reordering. -/
def calculateMedian (arr : List Int) : Option Int :=
  if arr.length = 0 then none
  else
    let mid := arr.length / 2
    let nums := arr.insertionSort (· ≤ ·)
    if arr.length % 2 = 0 then
      some (Int.tdiv (nums.getD (mid - 1) 0 + nums.getD mid 0) 2)
    else
      some (nums.getD mid 0)

/-- From the deviation module: `isDeviationThresholdExceeded`. -/
def isDeviationThresholdExceeded
    (onChainValue deviationThreshold apiValue deviationReference : Int) : Bool :=
  calculateDeviationPercentage onChainValue apiValue deviationReference ≥ deviationThreshold

/-- From the deviation module: `isOnChainDataFresh(timestamp, heartbeatInterval)`.
The source reads the wall clock (`Date.now() / 1000`, floored); here `now` is
an explicit parameter. -/
def isOnChainDataFresh (timestamp heartbeatInterval now : Int) : Bool :=
  timestamp > now - heartbeatInterval

/-- From the deviation module: `isDataFeedUpdatable`. Argument order follows
the source, with the wall-clock second count `now` appended. -/
def isDataFeedUpdatable
    (onChainValue onChainTimestamp offChainValue offChainTimestamp
     heartbeatInterval deviationThreshold deviationReference now : Int) : Bool :=
  if offChainTimestamp ≤ onChainTimestamp then false
  else if onChainTimestamp = 0 then true
  else if isOnChainDataFresh onChainTimestamp heartbeatInterval now then
    if deviationThreshold = 0 then false
    else if isDeviationThresholdExceeded onChainValue deviationThreshold offChainValue
        deviationReference then true
    else false
  else
    if heartbeatInterval = 0 then false
    else true

/-- C1 (counterexample). The claim says `isDataFeedUpdatable` with
`onChainTimestamp = 0` returns true regardless of the other inputs. It does
not: with `offChainTimestamp = 0` as well, the stale-data guard
(`offChainTimestamp <= onChainTimestamp`) fires first and the result is
false. -/
theorem isDataFeedUpdatable_zero_onchain_ts_not_always_true :
    isDataFeedUpdatable 0 0 0 0 0 0 0 0 = false := by decide

/-- C1 (amended). With `onChainTimestamp = 0`, `isDataFeedUpdatable` returns
true for every choice of the other inputs provided the off-chain timestamp is
strictly positive (equivalently, strictly newer than the zero on-chain
timestamp); when `offChainTimestamp ≤ 0` the stale-data guard takes precedence
and the result is false. -/
theorem isDataFeedUpdatable_uninitialized_slot_updatable
    (v v2 ts2 hb dt dr now : Int) (h : 0 < ts2) :
    isDataFeedUpdatable v 0 v2 ts2 hb dt dr now = true := by
  simp only [isDataFeedUpdatable]
  rw [if_neg (by omega)]
  simp

/-- C1 witness: the amended theorem applied at a concrete input. -/
theorem isDataFeedUpdatable_uninitialized_slot_updatable_witness :
    isDataFeedUpdatable 7 0 9 1 0 0 0 0 = true :=
  isDataFeedUpdatable_uninitialized_slot_updatable 7 9 1 0 0 0 0 (by decide)

/-- C3. Whenever `isDataFeedUpdatable` reaches the deviation branch
(off-chain data strictly newer, on-chain slot initialized, on-chain data
fresh enough) with a zero deviation threshold, or the heartbeat branch
(on-chain data not fresh enough) with a zero heartbeat interval, it returns
false. The embedded function is total, so no exception is possible. -/
theorem isDataFeedUpdatable_zero_policy_not_updatable
    (v ts v2 ts2 hb dt dr now : Int) (hnew : ts < ts2) (hinit : ts ≠ 0) :
    (isOnChainDataFresh ts hb now = true → dt = 0 →
      isDataFeedUpdatable v ts v2 ts2 hb dt dr now = false) ∧
    (isOnChainDataFresh ts hb now = false → hb = 0 →
      isDataFeedUpdatable v ts v2 ts2 hb dt dr now = false) := by
  constructor
  · intro hfresh hdt
    simp only [isDataFeedUpdatable]
    rw [if_neg (by omega), if_neg hinit, if_pos hfresh, if_pos hdt]
  · intro hstale hhb
    simp only [isDataFeedUpdatable]
    rw [if_neg (by omega), if_neg hinit, if_neg (by simp [hstale]), if_pos hhb]

/-- C3 witness: the theorem applied at concrete inputs exercising both the
fresh (zero deviation threshold) and the stale (zero heartbeat interval)
branches. -/
theorem isDataFeedUpdatable_zero_policy_not_updatable_witness :
    isDataFeedUpdatable 1 5 2 6 100 0 0 10 = false ∧
    isDataFeedUpdatable 1 5 2 6 0 3 0 1000 = false :=
  ⟨(isDataFeedUpdatable_zero_policy_not_updatable 1 5 2 6 100 0 0 10
      (by decide) (by decide)).1 (by decide) rfl,
   (isDataFeedUpdatable_zero_policy_not_updatable 1 5 2 6 0 3 0 1000
      (by decide) (by decide)).2 (by decide) rfl⟩

/-- From src/utils.ts: `decodeBeaconValue`. The ethers ABI decode of an
`int256` word yields an integer (modelled as the argument here); values
outside the signed 224-bit range decode to `null`, everything else is
returned unchanged. -/
def decodeBeaconValue (decodedBeaconValue : Int) : Option Int :=
  if decodedBeaconValue > INT224_MAX ∨ decodedBeaconValue < INT224_MIN then none
  else some decodedBeaconValue

/-- Helper: the source's `abs` agrees with `Int.natAbs`. -/
theorem abs_eq_natAbs (n : Int) : abs n = (n.natAbs : Int) := by
  unfold abs; split <;> omega

/-- Helper: the source's `abs` vanishes only at zero. -/
theorem abs_eq_zero_iff {n : Int} : abs n = 0 ↔ n = 0 := by
  unfold abs; split <;> omega

/-- Helper: `Int.tdiv` on two natural casts is natural division. -/
theorem tdiv_natCast (m n : Nat) : Int.tdiv (m : Int) (n : Int) = ((m / n : Nat) : Int) := rfl

/-- C2. `calculateDeviationPercentage` returns 0 whenever the updated value
equals the initial value, for every deviation reference (zero delta takes
precedence); when they differ and the reference equals the initial value it
returns `UINT256_MAX`; otherwise it returns
`|updated - initial| * 10 ^ 8 / |reference - initial|` with exact integer
division truncating toward zero (all operands non-negative, so natural
division). -/
theorem calculateDeviationPercentage_spec (i u r : Int) :
    (u = i → calculateDeviationPercentage i u r = 0) ∧
    (u ≠ i → r = i → calculateDeviationPercentage i u r = UINT256_MAX) ∧
    (u ≠ i → r ≠ i →
      calculateDeviationPercentage i u r =
        (((u - i).natAbs * 10 ^ 8 / (r - i).natAbs : Nat) : Int)) := by
  refine ⟨?_, ?_, ?_⟩
  · intro h
    subst h
    simp [calculateDeviationPercentage, abs]
  · intro hu hr
    subst hr
    simp only [calculateDeviationPercentage]
    rw [if_neg (by rw [abs_eq_zero_iff]; omega), if_pos (by rw [abs_eq_zero_iff]; omega)]
  · intro hu hr
    simp only [calculateDeviationPercentage]
    rw [if_neg (by rw [abs_eq_zero_iff]; omega), if_neg (by rw [abs_eq_zero_iff]; omega)]
    rw [abs_eq_natAbs, abs_eq_natAbs]
    have hh : (HUNDRED_PERCENT : Int) = ((10 ^ 8 : Nat) : Int) := by norm_num [HUNDRED_PERCENT]
    rw [hh, ← Nat.cast_mul, tdiv_natCast]

/-- C2 witness: the theorem applied at concrete inputs covering all three
branches. -/
theorem calculateDeviationPercentage_spec_witness :
    calculateDeviationPercentage 100 100 7 = 0 ∧
    calculateDeviationPercentage 100 107 100 = UINT256_MAX ∧
    calculateDeviationPercentage 100 107 200 =
      ((((107 : Int) - 100).natAbs * 10 ^ 8 / ((200 : Int) - 100).natAbs : Nat) : Int) :=
  ⟨(calculateDeviationPercentage_spec 100 100 7).1 rfl,
   (calculateDeviationPercentage_spec 100 107 100).2.1 (by decide) rfl,
   (calculateDeviationPercentage_spec 100 107 200).2.2 (by decide) (by decide)⟩

/-- C4. `calculateMedian` of the empty list fails; `calculateMedian [1,2,3,4]`
is 2; and for every non-empty list there is an ascending reordering `s` of
the list such that the result is the middle element of `s` (odd length) or
the truncating integer mean of the two middle elements of `s` (even
length). -/
theorem calculateMedian_spec :
    calculateMedian [] = none ∧
    calculateMedian [1, 2, 3, 4] = some 2 ∧
    ∀ l : List Int, l ≠ [] → ∃ s : List Int,
      s.Perm l ∧ s.Sorted (· ≤ ·) ∧
      calculateMedian l =
        some (if l.length % 2 = 0
          then Int.tdiv (s.getD (l.length / 2 - 1) 0 + s.getD (l.length / 2) 0) 2
          else s.getD (l.length / 2) 0) := by
  refine ⟨rfl, by decide, ?_⟩
  intro l hl
  refine ⟨l.insertionSort (· ≤ ·), List.perm_insertionSort _ l,
    List.sorted_insertionSort _ l, ?_⟩
  simp only [calculateMedian]
  rw [if_neg (by simpa using hl)]
  split <;> rfl

/-- C4 witness: the universally quantified part applied at the concrete list
`[1, 2, 3, 4]`. -/
theorem calculateMedian_spec_witness :
    ∃ s : List Int, s.Perm [1, 2, 3, 4] ∧ s.Sorted (· ≤ ·) ∧
      calculateMedian [1, 2, 3, 4] =
        some (if ([1, 2, 3, 4] : List Int).length % 2 = 0
          then Int.tdiv (s.getD (([1, 2, 3, 4] : List Int).length / 2 - 1) 0 +
            s.getD (([1, 2, 3, 4] : List Int).length / 2) 0) 2
          else s.getD (([1, 2, 3, 4] : List Int).length / 2) 0) :=
  calculateMedian_spec.2.2 [1, 2, 3, 4] (by decide)

/-- C8. `decodeBeaconValue` returns `none` exactly when the decoded value
lies outside the signed 224-bit range `[INT224_MIN, INT224_MAX]`, that is,
`[-(2 ^ 223), 2 ^ 223 - 1]`; every value inside the range, including the
boundaries, is returned unchanged, never wrapped. -/
theorem decodeBeaconValue_int224_range (v : Int) :
    (decodeBeaconValue v = none ↔ (v < INT224_MIN ∨ INT224_MAX < v)) ∧
    (INT224_MIN ≤ v → v ≤ INT224_MAX → decodeBeaconValue v = some v) ∧
    INT224_MIN = -(2 ^ 223) ∧ INT224_MAX = 2 ^ 223 - 1 := by
  refine ⟨?_, ?_, rfl, rfl⟩
  · simp only [decodeBeaconValue]
    split_ifs with h
    · exact iff_of_true rfl (by omega)
    · constructor
      · intro hc
        exact absurd hc (by simp)
      · intro hc
        exact absurd hc (by omega)
  · intro h1 h2
    simp only [decodeBeaconValue]
    rw [if_neg (by omega)]

/-- C8 witness: the theorem applied at the upper boundary value, which is
kept, and at the first value above it, which is rejected. -/
theorem decodeBeaconValue_int224_range_witness :
    decodeBeaconValue (2 ^ 223 - 1) = some (2 ^ 223 - 1) ∧
    (decodeBeaconValue (2 ^ 223) = none ↔
      ((2 : Int) ^ 223 < INT224_MIN ∨ INT224_MAX < (2 : Int) ^ 223)) :=
  ⟨(decodeBeaconValue_int224_range _).2.1 (by norm_num [INT224_MIN])
      (by norm_num [INT224_MAX]),
   (decodeBeaconValue_int224_range _).1⟩

/-- From the update-feeds module: the paginated registry read
`readDapis(offset, limit)`, per the external registry interface
`readPage(offset, limit)`, over an unmutated registry snapshot. -/
def readDapis {α : Type} (registry : List α) (offset limit : Nat) : List α :=
  (registry.drop offset).take limit

/-- From the update-feeds module, `runUpdateFeed`:
`batchesCount = totalCount / dataFeedBatchSize` is JavaScript real-number
division, consumed by lodash `range(1, batchesCount)`, which enumerates the
integers from 1 up to but excluding `batchesCount` — that is,
`1, ..., ceil(batchesCount) - 1`. This is that ceiling. -/
def batchesCountCeil (totalCount B : Nat) : Nat := (totalCount + B - 1) / B

/-- From the update-feeds module, `runUpdateFeed`: the batch indices produced
by `range(1, batchesCount)` for the later batch reads. -/
def otherBatchIndices (totalCount B : Nat) : List Nat :=
  List.range' 1 (batchesCountCeil totalCount B - 1)

/-- From the update-feeds module, `runUpdateFeed`: the batch plan of one
cycle. The first read is `readDapis(0, B)`; each later batch index `i` from
`range(1, batchesCount)` reads `readDapis(i * B, B)`. -/
def runUpdateFeedBatches {α : Type} (registry : List α) (B : Nat) : List (List α) :=
  readDapis registry 0 B ::
    (otherBatchIndices registry.length B).map (fun i => readDapis registry (i * B) B)

/-- Helper: concatenating the consecutive B-sized slices numbered
`0, ..., k - 1` of a list of length at most `k * B` restores the list. -/
theorem flatten_batch_slices {α : Type} (B : Nat) :
    ∀ (k : Nat) (l : List α), l.length ≤ k * B →
      ((List.range k).map (fun i => (l.drop (i * B)).take B)).flatten = l := by
  intro k
  induction k with
  | zero =>
    intro l h
    have hnil : l = [] := List.eq_nil_of_length_eq_zero (by omega)
    subst hnil
    rfl
  | succ k ih =>
    intro l h
    rw [List.range_succ_eq_map]
    simp only [List.map_cons, List.map_map, List.flatten_cons, Nat.zero_mul, List.drop_zero]
    have hfun : ((fun i => (l.drop (i * B)).take B) ∘ Nat.succ)
        = (fun i => ((l.drop B).drop (i * B)).take B) := by
      funext i
      simp only [Function.comp_apply]
      have harg : Nat.succ i * B = B + i * B := by
        rw [Nat.succ_mul, Nat.add_comm]
      rw [harg, List.drop_drop]
    rw [hfun]
    rw [Nat.succ_mul] at h
    rw [ih (l.drop B) (by simp only [List.length_drop]; omega)]
    exact List.take_append_drop B l

/-- C5. For every registry snapshot and batch size B ≥ 1, the batch plan of
one `runUpdateFeed` cycle — a first read at offset 0 with limit B plus later
reads at offsets `batchIndex * B` for the lodash-range batch indices —
returns every registry item exactly once: the concatenation of all planned
batches is the registry itself (nothing skipped, nothing read twice). -/
theorem runUpdateFeed_batch_plan_exact_cover {α : Type} (registry : List α) (B : Nat)
    (hB : 1 ≤ B) : (runUpdateFeedBatches registry B).flatten = registry := by
  have hcover : registry.length ≤ batchesCountCeil registry.length B * B := by
    unfold batchesCountCeil
    have hmod := Nat.div_add_mod (registry.length + B - 1) B
    have hlt : (registry.length + B - 1) % B < B := Nat.mod_lt _ (by omega)
    rw [Nat.mul_comm]
    omega
  rcases Nat.eq_zero_or_pos (batchesCountCeil registry.length B) with hc | hc
  · have hlen : registry.length = 0 := by
      rw [hc, Nat.zero_mul] at hcover
      omega
    have hnil : registry = [] := List.eq_nil_of_length_eq_zero hlen
    subst hnil
    simp [runUpdateFeedBatches, otherBatchIndices, readDapis, hc]
  · obtain ⟨k, hk⟩ : ∃ k, batchesCountCeil registry.length B = k + 1 :=
      ⟨batchesCountCeil registry.length B - 1, by omega⟩
    have hmain := flatten_batch_slices B (k + 1) registry (by rw [← hk]; exact hcover)
    rw [List.range_eq_range', List.range'_succ] at hmain
    simp only [List.map_cons, Nat.zero_mul, List.drop_zero, List.flatten_cons,
      Nat.zero_add] at hmain
    unfold runUpdateFeedBatches otherBatchIndices readDapis
    rw [hk]
    simp only [Nat.add_sub_cancel, List.drop_zero]
    exact hmain

/-- C5 witness: the theorem applied to a concrete 5-item registry with batch
size 2 (so a fractional JavaScript `batchesCount` of 2.5, giving later
batches at offsets 2 and 4). -/
theorem runUpdateFeed_batch_plan_exact_cover_witness :
    (runUpdateFeedBatches ([10, 20, 30, 40, 50] : List Int) 2).flatten
      = [10, 20, 30, 40, 50] :=
  runUpdateFeed_batch_plan_exact_cover [10, 20, 30, 40, 50] 2 (by decide)

/-- From the update-feeds module, `runUpdateFeed`: the control flow of one
cycle over an abstract process state. `firstRead` is the combined
first-page-plus-count remote read (`none` means it failed); `laterRead off`
is the later batch read at registry offset `off` (`none` means that batch
failed and is dropped); `process` is `processBatch`, merging one retrieved
batch into the state. The cycle returns the final state together with the
offsets of the later batch reads it issued. On a failed first read it logs
and returns at once. -/
def runUpdateFeed {E σ : Type} (process : List E → σ → σ) (B : Nat)
    (firstRead : Option (List E × Nat)) (laterRead : Nat → Option (List E))
    (st : σ) : σ × List Nat :=
  match firstRead with
  | none => (st, [])
  | some (firstBatch, totalCount) =>
    let offsets := (otherBatchIndices totalCount B).map (fun i => i * B)
    let st1 := process firstBatch st
    (offsets.foldl
      (fun s off =>
        match laterRead off with
        | none => s
        | some batch => process batch s) st1,
     offsets)

/-- C6. If the combined first-page-plus-total-count read at the start of a
`runUpdateFeed` cycle fails, the cycle issues no further batch reads and
commits no change to process state: the resulting state is exactly the
incoming state, for every batch size, later-read behaviour and state. -/
theorem runUpdateFeed_first_batch_failure_aborts {E σ : Type}
    (process : List E → σ → σ) (B : Nat) (laterRead : Nat → Option (List E))
    (st : σ) :
    runUpdateFeed process B none laterRead st = (st, []) := rfl

/-- Signed-API URL entry (spec data model, mirrored by the update-feeds
test): a URL together with the last time data was received from it. -/
structure SignedApiUrlEntry where
  url : String
  lastReceivedMs : Nat
deriving DecidableEq

/-- Helper for `mergeUrls`: the entry retained for an existing entry `e` —
the fresh entry with the same URL when that one is strictly newer, else `e`
itself. -/
def pickEntry (freshUrls : List SignedApiUrlEntry) (e : SignedApiUrlEntry) :
    SignedApiUrlEntry :=
  match freshUrls.find? (fun f => f.url == e.url) with
  | some f => if e.lastReceivedMs < f.lastReceivedMs then f else e
  | none => e

/-- Modelled from the spec: the `mergeUrls` implementation of the
update-feeds module is absent from the sources; only its unit test is
present. Per the spec, entries are deduplicated by URL; merging keeps, per
URL, the entry with the greater `lastReceivedMs`, and otherwise includes
URLs present in either input (union, not intersection). Existing entries
come first, then the fresh entries whose URL is new, matching the order the
test expects. -/
def mergeUrls (existingUrls freshUrls : List SignedApiUrlEntry) :
    List SignedApiUrlEntry :=
  existingUrls.map (pickEntry freshUrls) ++
    freshUrls.filter (fun f => !(existingUrls.any (fun e => e.url == f.url)))

/-- Helper: retaining an entry never changes its URL. -/
theorem pickEntry_url (B : List SignedApiUrlEntry) (e : SignedApiUrlEntry) :
    (pickEntry B e).url = e.url := by
  unfold pickEntry
  cases hfind : B.find? (fun f => f.url == e.url) with
  | none => rfl
  | some f =>
    have hf := List.find?_some hfind
    simp only [beq_iff_eq] at hf
    dsimp only
    split
    · exact hf
    · rfl

/-- Helper: a retained entry is the existing one or comes from the fresh
list. -/
theorem pickEntry_mem (B : List SignedApiUrlEntry) (e : SignedApiUrlEntry) :
    pickEntry B e = e ∨ pickEntry B e ∈ B := by
  unfold pickEntry
  cases hfind : B.find? (fun f => f.url == e.url) with
  | none => exact Or.inl rfl
  | some f =>
    dsimp only
    split
    · exact Or.inr (List.mem_of_find?_eq_some hfind)
    · exact Or.inl rfl

/-- Helper: an existing entry whose URL is absent from the fresh list is
kept as is. -/
theorem pickEntry_eq_self (B : List SignedApiUrlEntry) (e : SignedApiUrlEntry)
    (h : ∀ f ∈ B, f.url ≠ e.url) : pickEntry B e = e := by
  unfold pickEntry
  rw [List.find?_eq_none.mpr (by intro f hf; simp [h f hf])]

/-- Helper: for a URL present on both sides, the entry with the greater
`lastReceivedMs` is retained. -/
theorem pickEntry_winner (B : List SignedApiUrlEntry)
    (hB : (B.map (fun f => f.url)).Nodup) (e f : SignedApiUrlEntry)
    (hf : f ∈ B) (hurl : f.url = e.url) :
    pickEntry B e = if e.lastReceivedMs < f.lastReceivedMs then f else e := by
  unfold pickEntry
  cases hfind : B.find? (fun g => g.url == e.url) with
  | none => exact absurd (List.find?_eq_none.mp hfind f hf) (by simp [hurl])
  | some g =>
    have hg1 := List.find?_some hfind
    have hg2 := List.mem_of_find?_eq_some hfind
    simp only [beq_iff_eq] at hg1
    have hgf : g = f :=
      List.inj_on_of_nodup_map hB hg2 hf (by rw [hg1, hurl])
    dsimp only
    rw [hgf]

/-- C7. For URL-deduplicated inputs, `mergeUrls` yields exactly one entry
per URL present in either input: its URL multiset is duplicate-free, every
output entry comes from one of the inputs, entries whose URL occurs on only
one side are kept, and for a URL present on both sides the entry with the
greater `lastReceivedMs` is in the output. In particular, merging
one@100, three@3 with one@1, two@2 yields one@100, three@3, two@2. -/
theorem mergeUrls_spec (A B : List SignedApiUrlEntry)
    (hA : (A.map (fun e => e.url)).Nodup) (hB : (B.map (fun f => f.url)).Nodup) :
    (((mergeUrls A B).map (fun x => x.url)).Nodup ∧
     (∀ x ∈ mergeUrls A B, x ∈ A ∨ x ∈ B) ∧
     (∀ e ∈ A, (∀ f ∈ B, f.url ≠ e.url) → e ∈ mergeUrls A B) ∧
     (∀ f ∈ B, (∀ e ∈ A, e.url ≠ f.url) → f ∈ mergeUrls A B) ∧
     (∀ e ∈ A, ∀ f ∈ B, f.url = e.url →
       (if e.lastReceivedMs < f.lastReceivedMs then f else e) ∈ mergeUrls A B)) ∧
    mergeUrls [⟨"one", 100⟩, ⟨"three", 3⟩] [⟨"one", 1⟩, ⟨"two", 2⟩]
      = [⟨"one", 100⟩, ⟨"three", 3⟩, ⟨"two", 2⟩] := by
  refine ⟨⟨?_, ?_, ?_, ?_, ?_⟩, by decide⟩
  · unfold mergeUrls
    rw [List.map_append, List.nodup_append]
    refine ⟨?_, ?_, ?_⟩
    · rw [List.map_map]
      have hsame : A.map ((fun x => x.url) ∘ pickEntry B) = A.map (fun e => e.url) :=
        List.map_congr_left (fun a _ => pickEntry_url B a)
      rw [hsame]
      exact hA
    · exact List.Nodup.sublist (List.Sublist.map _ (List.filter_sublist B)) hB
    · intro u hu1 hu2
      rw [List.map_map] at hu1
      obtain ⟨a, ha, hau⟩ := List.mem_map.mp hu1
      obtain ⟨f, hfmem, hfu⟩ := List.mem_map.mp hu2
      rw [List.mem_filter] at hfmem
      obtain ⟨hfB, hfq⟩ := hfmem
      simp only [Bool.not_eq_true', List.any_eq_false, beq_iff_eq] at hfq
      apply hfq a ha
      have hau2 : a.url = u := by
        rw [← hau]
        exact (pickEntry_url B a).symm
      rw [hau2, hfu]
  · intro x hx
    unfold mergeUrls at hx
    rw [List.mem_append] at hx
    rcases hx with hx | hx
    · obtain ⟨a, ha, rfl⟩ := List.mem_map.mp hx
      rcases pickEntry_mem B a with heq | hmem
      · rw [heq]
        exact Or.inl ha
      · exact Or.inr hmem
    · exact Or.inr (List.mem_of_mem_filter hx)
  · intro e he hno
    unfold mergeUrls
    refine List.mem_append_left _ ?_
    rw [← pickEntry_eq_self B e hno]
    exact List.mem_map_of_mem _ he
  · intro f hf hno
    unfold mergeUrls
    refine List.mem_append_right _ ?_
    rw [List.mem_filter]
    refine ⟨hf, ?_⟩
    simp only [Bool.not_eq_true', List.any_eq_false, beq_iff_eq]
    exact hno
  · intro e he f hf hurl
    unfold mergeUrls
    refine List.mem_append_left _ ?_
    rw [← pickEntry_winner B hB e f hf hurl]
    exact List.mem_map_of_mem _ he

/-- C7 witness: the theorem applied at the test's concrete inputs,
projected to the concrete merge result. -/
theorem mergeUrls_spec_witness :
    mergeUrls [⟨"one", 100⟩, ⟨"three", 3⟩] [⟨"one", 1⟩, ⟨"two", 2⟩]
      = [⟨"one", 100⟩, ⟨"three", 3⟩, ⟨"two", 2⟩] :=
  (mergeUrls_spec [⟨"one", 100⟩, ⟨"three", 3⟩] [⟨"one", 1⟩, ⟨"two", 2⟩]
    (by decide) (by decide)).2

/-- Process-state fields touched by the data fetcher (`getState()` in
src/signed-api-fetch/data-fetcher.ts): the repeating-timer handle and the
signed-API URL bookkeeping (other fields are unaffected by the registration
step). -/
structure DataFetcherState where
  dataFetcherInterval : Option Nat
  signedApiUrlStore : List SignedApiUrlEntry
deriving DecidableEq

/-- From src/signed-api-fetch/data-fetcher.ts, `runDataFetcher`: the timer
registration step. When no interval handle is recorded in process state, a
repeating timer is registered (`setInterval`) and its handle stored;
otherwise nothing happens. Returns the state after the step and whether a
new timer was registered. -/
def runDataFetcherRegisterTimer (newHandle : Nat) (st : DataFetcherState) :
    DataFetcherState × Bool :=
  match st.dataFetcherInterval with
  | none => ({ st with dataFetcherInterval := some newHandle }, true)
  | some _ => (st, false)

/-- C9. `runDataFetcher` registers its repeating fetch timer only when no
interval handle is recorded: with a handle present the state (the stored
handle included) is unchanged and no timer is registered, and in particular
a second invocation right after a successful registration is a no-op, so at
most one fetcher timer ever exists. -/
theorem runDataFetcher_timer_registration_idempotent
    (h : Nat) (st : DataFetcherState) :
    (st.dataFetcherInterval = none →
      runDataFetcherRegisterTimer h st
        = ({ st with dataFetcherInterval := some h }, true)) ∧
    (st.dataFetcherInterval ≠ none →
      runDataFetcherRegisterTimer h st = (st, false)) ∧
    (∀ h2, st.dataFetcherInterval = none →
      runDataFetcherRegisterTimer h2 (runDataFetcherRegisterTimer h st).1
        = ((runDataFetcherRegisterTimer h st).1, false)) := by
  refine ⟨fun hnone => ?_, fun hsome => ?_, fun h2 hnone => ?_⟩
  · unfold runDataFetcherRegisterTimer
    rw [hnone]
  · unfold runDataFetcherRegisterTimer
    cases hst : st.dataFetcherInterval with
    | none => exact absurd hst hsome
    | some h0 => rfl
  · unfold runDataFetcherRegisterTimer
    rw [hnone]

/-- C9 witness: the theorem applied at a concrete empty state — registering
once stores the handle, and the invocation right after is a no-op. -/
theorem runDataFetcher_timer_registration_idempotent_witness :
    runDataFetcherRegisterTimer 7 (runDataFetcherRegisterTimer 5 ⟨none, []⟩).1
      = ((runDataFetcherRegisterTimer 5 ⟨none, []⟩).1, false) :=
  (runDataFetcher_timer_registration_idempotent 5 ⟨none, []⟩).2.2 7 rfl

/-- A fragment of the JavaScript heap: arrays addressed by reference. -/
structure JsArrayHeap where
  arrays : List (List Int)

/-- From the deviation module: `calculateMedian` as it acts on the
JavaScript heap. The argument array is passed by reference `r`;
`const nums = [...arr]` allocates a fresh array at the end of the heap, and
`nums.sort(...)` then mutates that fresh array in place. The result is the
returned value (`none` for the thrown invariant error on an empty array)
and the heap after the call. -/
def calculateMedianOnHeap (h : JsArrayHeap) (r : Nat) : Option Int × JsArrayHeap :=
  let arr := h.arrays.getD r []
  if arr.length = 0 then (none, h)
  else
    let numsRef := h.arrays.length
    let h2 : JsArrayHeap := ⟨h.arrays ++ [arr]⟩
    let h3 : JsArrayHeap :=
      ⟨h2.arrays.set numsRef ((h2.arrays.getD numsRef []).insertionSort (· ≤ ·))⟩
    let nums := h3.arrays.getD numsRef []
    let mid := arr.length / 2
    (some (if arr.length % 2 = 0
      then Int.tdiv (nums.getD (mid - 1) 0 + nums.getD mid 0) 2
      else nums.getD mid 0), h3)

/-- C10. `calculateMedian` never mutates its argument: the array the
reference points at holds the same elements in the same order after the
call (only the private copy is sorted), and the returned value agrees with
the pure `calculateMedian`. -/
theorem calculateMedian_does_not_mutate_argument (h : JsArrayHeap) (r : Nat) :
    ((calculateMedianOnHeap h r).2.arrays.getD r [] = h.arrays.getD r []) ∧
    (calculateMedianOnHeap h r).1 = calculateMedian (h.arrays.getD r []) := by
  by_cases hempty : (h.arrays.getD r []).length = 0
  · constructor
    · simp only [calculateMedianOnHeap]
      rw [if_pos hempty]
    · simp only [calculateMedianOnHeap, calculateMedian]
      rw [if_pos hempty, if_pos hempty]
  · have hr : r < h.arrays.length := by
      by_contra hge
      push_neg at hge
      rw [List.getD_eq_default _ _ (by omega)] at hempty
      simp at hempty
    have hgetnums :
        ((h.arrays ++ [h.arrays.getD r []]).set h.arrays.length
            (((h.arrays ++ [h.arrays.getD r []]).getD h.arrays.length []).insertionSort
              (· ≤ ·))).getD h.arrays.length []
          = (h.arrays.getD r []).insertionSort (· ≤ ·) := by
      have hcat : (h.arrays ++ [h.arrays.getD r []]).getD h.arrays.length []
          = h.arrays.getD r [] := by
        rw [List.getD_eq_getElem?_getD, List.getElem?_concat_length]
        rfl
      rw [hcat, List.getD_eq_getElem?_getD, List.getElem?_set_self (by simp)]
      rfl
    constructor
    · simp only [calculateMedianOnHeap, if_neg hempty]
      rw [List.getD_eq_getElem?_getD, List.getElem?_set_ne (by omega),
        List.getElem?_append_left hr, ← List.getD_eq_getElem?_getD]
    · simp only [calculateMedianOnHeap, calculateMedian, if_neg hempty]
      rw [hgetnums]
      split <;> rfl

end Airseeker
